import Mathlib

/-!
Shallow embedding of the reading-length counting subsystem of the
haiku-diary repository: the functions `toHiragana`, `stripPunctuation`,
`stripSmallKana`, `normalizeReading` and `countReadingChars`.

Strings are modelled as Lean `String`s (sequences of Unicode scalar
values); the JavaScript regex replaces become character maps and filters
over the scalar sequence.  `Array.from(s).length` (code-point count) is
modelled by `String.length`.  The JavaScript values `null`/`undefined`
that may reach `countReadingChars` are modelled by `Option String`
(`none` standing for a missing string, so that `typeof yomi === 'string'`
becomes `yomi.isSome` and `raw ?? ''` becomes `raw.getD ""`).
-/

def KATAKANA_START : Nat := 0x30a1

def KATAKANA_END : Nat := 0x30f6

def HIRAGANA_OFFSET : Nat := 0x60

/-- One step of the regex replace in `toHiragana`: a character matching
`[ァ-ヶ]` is replaced by `String.fromCharCode(c.charCodeAt(0) - 0x60)`;
any other character is left unchanged. -/
def foldKatakanaChar (c : Char) : Char :=
  if KATAKANA_START ≤ c.toNat ∧ c.toNat ≤ KATAKANA_END then
    Char.ofNat (c.toNat - HIRAGANA_OFFSET)
  else c

/-- Source: `toHiragana = (value) => value.replace(/[ァ-ヶ]/g, ...)`. -/
def toHiragana (value : String) : String :=
  ⟨value.data.map foldKatakanaChar⟩

/-- The character class of the JavaScript regex `\s` (which is also the
character set removed by `String.prototype.trim`): tab, line feed,
vertical tab, form feed, carriage return, space, no-break space, ogham
space mark, the U+2000–U+200A spaces, line separator, paragraph
separator, narrow no-break space, medium mathematical space,
ideographic space and the zero-width no-break space. -/
def jsWhitespaceCodes : List Nat :=
  [0x9, 0xa, 0xb, 0xc, 0xd, 0x20, 0xa0, 0x1680,
   0x2028, 0x2029, 0x202f, 0x205f, 0x3000, 0xfeff]

def isJsWhitespace (c : Char) : Bool :=
  jsWhitespaceCodes.contains c.toNat ||
    (0x2000 ≤ c.toNat && c.toNat ≤ 0x200a)

/-- The enumerated character class of the second replace in
`stripPunctuation`: `[、。．，,.!！?？「」『』（）()［］\[\]【】・:;：；…‥]`. -/
def punctuationChars : List Char :=
  ['、', '。', '．', '，', ',', '.', '!', '！', '?', '？',
   '「', '」', '『', '』', '（', '）', '(', ')', '［', '］',
   '[', ']', '【', '】', '・', ':', ';', '：', '；', '…', '‥']

/-- Source: `stripPunctuation = (value) => value.replace(/[\s　]/g, '')
.replace(/[、。．，,.!！?？「」『』（）()［］\[\]【】・:;：；…‥]/g, '')`.
(The full-width space `　` in the first class is already covered by `\s`.) -/
def stripPunctuation (value : String) : String :=
  ⟨(value.data.filter (fun c => !isJsWhitespace c)).filter
    (fun c => !punctuationChars.contains c)⟩

/-- The character class of the replace in `stripSmallKana`: `[ゃゅょャュョ]`. -/
def smallKanaChars : List Char :=
  ['ゃ', 'ゅ', 'ょ', 'ャ', 'ュ', 'ョ']

/-- Source: `stripSmallKana = (value) => value.replace(/[ゃゅょャュョ]/g, '')`. -/
def stripSmallKana (value : String) : String :=
  ⟨value.data.filter (fun c => !smallKanaChars.contains c)⟩

/-- Source: `normalizeReading = (value) => stripSmallKana(stripPunctuation(toHiragana(value)))`. -/
def normalizeReading (value : String) : String :=
  stripSmallKana (stripPunctuation (toHiragana value))

/-- Model of `String.prototype.trim`: remove leading and trailing characters of
the `\s` class. -/
def jsTrim (s : String) : String :=
  ⟨((s.data.dropWhile isJsWhitespace).reverse.dropWhile isJsWhitespace).reverse⟩

structure ReadingCountResult where
  count : Nat
  normalized : String
  source : String
deriving Repr, DecidableEq

/-- Source: `typeof yomi === 'string' && yomi.trim().length > 0`. -/
def hasYomiCheck (yomi : Option String) : Bool :=
  match yomi with
  | some y => decide (0 < (jsTrim y).length)
  | none => false

/-- Source: `countReadingChars = (text, yomi) => { ... }`: pick `yomi` when the
trimmed yomi is non-empty, otherwise `text`; normalize the (untrimmed)
picked value with `?? ''` coercion for a missing value; return the
code-point count of the normalized string together with the string and
the source tag. -/
def countReadingChars (text yomi : Option String) : ReadingCountResult :=
  let hasYomi := hasYomiCheck yomi
  let source := if hasYomi then "yomi" else "text"
  let raw := if hasYomi then yomi else text
  let normalized := normalizeReading (raw.getD "")
  { count := normalized.length, normalized := normalized, source := source }

/-- Variant final stage used by claim C9: remove only the hiragana small
ya/yu/yo glyphs.  This definition follows the claim's description of the
variant pipeline, not the source. -/
def stripSmallKanaHiraganaOnly (value : String) : String :=
  ⟨value.data.filter (fun c => !(['ゃ', 'ゅ', 'ょ'] : List Char).contains c)⟩

/-- Variant pipeline of claim C9: same fold and strip stages, but the
final stage removes only the hiragana small glyphs. -/
def normalizeReadingHiraganaOnly (value : String) : String :=
  stripSmallKanaHiraganaOnly (stripPunctuation (toHiragana value))

/-- ASCII symbol characters: printable ASCII that is neither a letter,
a digit, nor the space character. -/
def isAsciiSymbol (c : Char) : Bool :=
  0x21 ≤ c.toNat && c.toNat ≤ 0x7e && !c.isAlphanum

/-! ### Helper lemmas -/

theorem char_toNat_ofNat (m : Nat) (hv : m.isValidChar) : (Char.ofNat m).toNat = m := by
  simp [Char.ofNat, hv, Char.ofNatAux, Char.toNat, UInt32.toNat]

theorem foldKatakanaChar_eq_self (c : Char)
    (h : ¬(KATAKANA_START ≤ c.toNat ∧ c.toNat ≤ KATAKANA_END)) :
    foldKatakanaChar c = c :=
  if_neg h

theorem foldKatakanaChar_not_katakana (c : Char) :
    ¬(KATAKANA_START ≤ (foldKatakanaChar c).toNat ∧
      (foldKatakanaChar c).toNat ≤ KATAKANA_END) := by
  unfold foldKatakanaChar
  by_cases h : KATAKANA_START ≤ c.toNat ∧ c.toNat ≤ KATAKANA_END
  · rw [if_pos h]
    unfold KATAKANA_START KATAKANA_END HIRAGANA_OFFSET at *
    have hv : (c.toNat - 0x60).isValidChar := Or.inl (by omega)
    rw [char_toNat_ofNat _ hv]
    omega
  · rw [if_neg h]
    exact h

theorem foldKatakanaChar_idem (c : Char) :
    foldKatakanaChar (foldKatakanaChar c) = foldKatakanaChar c :=
  foldKatakanaChar_eq_self _ (foldKatakanaChar_not_katakana c)

theorem mem_normalizeReading_data (s : String) (a : Char)
    (ha : a ∈ (normalizeReading s).data) :
    foldKatakanaChar a = a ∧ isJsWhitespace a = false ∧
    punctuationChars.contains a = false ∧ smallKanaChars.contains a = false := by
  have ha' : a ∈ (((s.data.map foldKatakanaChar).filter
      (fun c => !isJsWhitespace c)).filter
        (fun c => !punctuationChars.contains c)).filter
          (fun c => !smallKanaChars.contains c) := ha
  have h3 := List.mem_filter.mp ha'
  have h2 := List.mem_filter.mp h3.1
  have h1 := List.mem_filter.mp h2.1
  obtain ⟨b, _, hb⟩ := List.mem_map.mp h1.1
  refine ⟨?_, ?_, ?_, ?_⟩
  · rw [← hb]; exact foldKatakanaChar_idem b
  · simpa using h1.2
  · simpa using h2.2
  · simpa using h3.2

theorem toHiragana_normalizeReading (s : String) :
    toHiragana (normalizeReading s) = normalizeReading s := by
  unfold toHiragana
  rw [List.map_congr_left
      (fun a ha => (mem_normalizeReading_data s a ha).1)]
  rw [List.map_id']

theorem stripPunctuation_normalizeReading (s : String) :
    stripPunctuation (normalizeReading s) = normalizeReading s := by
  have hp : (normalizeReading s).data.filter (fun c => !isJsWhitespace c) =
      (normalizeReading s).data :=
    List.filter_eq_self.mpr
      (fun a ha => by rw [(mem_normalizeReading_data s a ha).2.1]; rfl)
  have hq : (normalizeReading s).data.filter (fun c => !punctuationChars.contains c) =
      (normalizeReading s).data :=
    List.filter_eq_self.mpr
      (fun a ha => by rw [(mem_normalizeReading_data s a ha).2.2.1]; rfl)
  show (⟨((normalizeReading s).data.filter (fun c => !isJsWhitespace c)).filter
      (fun c => !punctuationChars.contains c)⟩ : String) = normalizeReading s
  rw [hp, hq]

theorem stripSmallKana_normalizeReading (s : String) :
    stripSmallKana (normalizeReading s) = normalizeReading s := by
  unfold stripSmallKana
  rw [List.filter_eq_self.mpr
      (fun a ha => by rw [(mem_normalizeReading_data s a ha).2.2.2]; rfl)]

theorem jsTrim_length_zero_iff (s : String) :
    (jsTrim s).length = 0 ↔ ∀ c ∈ s.data, isJsWhitespace c = true := by
  show (((s.data.dropWhile isJsWhitespace).reverse.dropWhile
      isJsWhitespace).reverse).length = 0 ↔ _
  rw [List.length_eq_zero, List.reverse_eq_nil_iff, List.dropWhile_eq_nil_iff]
  constructor
  · intro h c hc
    rw [← List.takeWhile_append_dropWhile isJsWhitespace s.data] at hc
    rcases List.mem_append.mp hc with h1 | h2
    · exact List.mem_takeWhile_imp h1
    · exact h c (List.mem_reverse.mpr h2)
  · intro h c hc
    exact h c ((List.dropWhile_sublist _).subset (List.mem_reverse.mp hc))

theorem isJsWhitespace_foldKatakanaChar (c : Char) (h : isJsWhitespace c = true) :
    foldKatakanaChar c = c := by
  apply foldKatakanaChar_eq_self
  unfold isJsWhitespace jsWhitespaceCodes at h
  simp only [List.contains_eq_any_beq, List.any_cons, List.any_nil, Bool.or_eq_true,
    beq_iff_eq, Bool.false_eq_true, or_false, Bool.and_eq_true, decide_eq_true_eq] at h
  unfold KATAKANA_START KATAKANA_END
  omega

theorem normalizeReading_all_whitespace (s : String)
    (h : ∀ c ∈ s.data, isJsWhitespace c = true) :
    normalizeReading s = "" := by
  show (⟨(((s.data.map foldKatakanaChar).filter
      (fun c => !isJsWhitespace c)).filter
        (fun c => !punctuationChars.contains c)).filter
          (fun c => !smallKanaChars.contains c)⟩ : String) = ""
  have hmap : s.data.map foldKatakanaChar = s.data := by
    rw [List.map_congr_left
        (fun a ha => isJsWhitespace_foldKatakanaChar a (h a ha))]
    exact List.map_id' s.data
  have hp : s.data.filter (fun c => !isJsWhitespace c) = [] :=
    List.filter_eq_nil_iff.mpr (fun a ha => by simp [h a ha])
  rw [hmap, hp]
  rfl

theorem countReadingChars_eq (text yomi : Option String) :
    countReadingChars text yomi =
      if hasYomiCheck yomi then
        { count := (normalizeReading (yomi.getD "")).length,
          normalized := normalizeReading (yomi.getD ""), source := "yomi" }
      else
        { count := (normalizeReading (text.getD "")).length,
          normalized := normalizeReading (text.getD ""), source := "text" } := by
  unfold countReadingChars
  by_cases h : hasYomiCheck yomi = true <;> simp [h]

theorem hasYomiCheck_iff (yomi : Option String) :
    hasYomiCheck yomi = true ↔ 0 < (jsTrim (yomi.getD "")).length := by
  cases yomi with
  | none =>
    constructor
    · intro h; exact absurd h (by decide)
    · intro h; exact absurd h (by decide)
  | some y => simp [hasYomiCheck]

theorem countReadingChars_swap_count_aux (s : String) :
    (countReadingChars (some s) (some "")).count =
    (countReadingChars (some "") (some s)).count := by
  rw [countReadingChars_eq, countReadingChars_eq]
  rw [show hasYomiCheck (some "") = false from by decide]
  by_cases h : hasYomiCheck (some s) = true
  · rw [if_pos h]; simp
  · rw [Bool.not_eq_true] at h
    rw [h]
    have h0 : (jsTrim s).length = 0 := by
      simp only [hasYomiCheck, decide_eq_false_iff_not, Nat.not_lt,
        Nat.le_zero] at h
      exact h
    have hz := normalizeReading_all_whitespace s ((jsTrim_length_zero_iff s).mp h0)
    simp [hz]
    decide

theorem mem_stripPunctuation_toHiragana (s : String) (a : Char)
    (ha : a ∈ (stripPunctuation (toHiragana s)).data) :
    ∃ b, foldKatakanaChar b = a := by
  have ha' : a ∈ ((s.data.map foldKatakanaChar).filter
      (fun c => !isJsWhitespace c)).filter
        (fun c => !punctuationChars.contains c) := ha
  have h2 := (List.mem_filter.mp ha').1
  have h1 := (List.mem_filter.mp h2).1
  obtain ⟨b, _, hb⟩ := List.mem_map.mp h1
  exact ⟨b, hb⟩

/-! ### Claim theorems -/

/-- C1: `normalizeReading` transforms every input through exactly three
stages in strict order — fold, then punctuation/whitespace stripping,
then small-kana elision — and the fold shifts every character with code
point in U+30A1..U+30F6 (inclusive) down by the offset 0x60 and leaves
every character outside that range unchanged. -/
theorem normalizeReading_three_stages (s : String) (c : Char) :
    normalizeReading s = stripSmallKana (stripPunctuation (toHiragana s))
    ∧ toHiragana s = ⟨s.data.map foldKatakanaChar⟩
    ∧ (0x30a1 ≤ c.toNat → c.toNat ≤ 0x30f6 →
        (foldKatakanaChar c).toNat = c.toNat - 0x60)
    ∧ (¬(0x30a1 ≤ c.toNat ∧ c.toNat ≤ 0x30f6) → foldKatakanaChar c = c) := by
  refine ⟨rfl, rfl, ?_, ?_⟩
  · intro h1 h2
    unfold foldKatakanaChar KATAKANA_START KATAKANA_END HIRAGANA_OFFSET
    rw [if_pos ⟨h1, h2⟩]
    exact char_toNat_ofNat _ (Or.inl (by omega))
  · intro h
    exact foldKatakanaChar_eq_self c h

/-- Witness for C1 at the concrete string "アイ" and character 'ア'. -/
theorem normalizeReading_three_stages_witness :
    normalizeReading "アイ" = stripSmallKana (stripPunctuation (toHiragana "アイ"))
    ∧ (foldKatakanaChar 'ア').toNat = 'ア'.toNat - 0x60
    ∧ foldKatakanaChar 'a' = 'a' := by
  obtain ⟨h1, _, h3, _⟩ := normalizeReading_three_stages "アイ" 'ア'
  obtain ⟨_, _, _, h4⟩ := normalizeReading_three_stages "アイ" 'a'
  exact ⟨h1, h3 (by decide) (by decide), h4 (by decide)⟩

/-- C2: the result's `source` is "yomi" exactly when the trimmed yomi is
non-empty; the string that gets normalized is the untrimmed chosen value
(yomi when `source = "yomi"`, text when `source = "text"`). -/
theorem countReadingChars_source_selection (text yomi : Option String) :
    ((countReadingChars text yomi).source = "yomi" ↔
      0 < (jsTrim (yomi.getD "")).length)
    ∧ ((countReadingChars text yomi).source = "yomi" →
        (countReadingChars text yomi).normalized = normalizeReading (yomi.getD ""))
    ∧ ((countReadingChars text yomi).source = "text" →
        (countReadingChars text yomi).normalized = normalizeReading (text.getD ""))
    ∧ ((countReadingChars text yomi).source = "yomi" ∨
        (countReadingChars text yomi).source = "text") := by
  by_cases h : hasYomiCheck yomi = true
  · rw [countReadingChars_eq, if_pos h]
    refine ⟨⟨fun _ => (hasYomiCheck_iff yomi).mp h, fun _ => rfl⟩,
      fun _ => rfl, ?_, Or.inl rfl⟩
    intro hc
    exact absurd (show ("yomi" : String) = "text" from hc) (by decide)
  · rw [Bool.not_eq_true] at h
    rw [countReadingChars_eq, h, if_neg (by decide)]
    refine ⟨⟨?_, ?_⟩, ?_, fun _ => rfl, Or.inr rfl⟩
    · intro hc
      exact absurd (show ("text" : String) = "yomi" from hc) (by decide)
    · intro hlen
      have hy := (hasYomiCheck_iff yomi).mpr hlen
      rw [h] at hy
      exact absurd hy (by decide)
    · intro hc
      exact absurd (show ("text" : String) = "yomi" from hc) (by decide)

/-- Witness for C2 at text "漢字" and yomi "かんじ". -/
theorem countReadingChars_source_selection_witness :
    (countReadingChars (some "漢字") (some "かんじ")).source = "yomi"
    ∧ (countReadingChars (some "漢字") (some "かんじ")).normalized =
        normalizeReading "かんじ" := by
  obtain ⟨h1, h2, _, _⟩ :=
    countReadingChars_source_selection (some "漢字") (some "かんじ")
  have hs := h1.mpr (by decide)
  exact ⟨hs, h2 hs⟩

/-- C3: `countReadingChars` is total: every input gives a well-formed
result with a count that is `≥ 0`, the source is always one of "yomi" or
"text", and a missing (null/undefined) source value is treated as the
empty string (count 0, normalized ""). -/
theorem countReadingChars_total (text yomi : Option String) :
    0 ≤ (countReadingChars text yomi).count
    ∧ ((countReadingChars text yomi).source = "yomi" ∨
        (countReadingChars text yomi).source = "text")
    ∧ countReadingChars none none =
        { count := 0, normalized := "", source := "text" }
    ∧ (hasYomiCheck yomi = false →
        countReadingChars none yomi =
          { count := 0, normalized := "", source := "text" }) := by
  refine ⟨Nat.zero_le _, ?_, by decide, ?_⟩
  · by_cases h : hasYomiCheck yomi = true
    · rw [countReadingChars_eq, if_pos h]
      exact Or.inl rfl
    · rw [Bool.not_eq_true] at h
      rw [countReadingChars_eq, h, if_neg (by decide)]
      exact Or.inr rfl
  · intro h
    rw [countReadingChars_eq, h, if_neg (by decide)]
    decide

/-- Witness for C3 at text missing and the whitespace-only yomi "  ". -/
theorem countReadingChars_total_witness :
    0 ≤ (countReadingChars none (some "  ")).count
    ∧ countReadingChars none (some "  ") =
        { count := 0, normalized := "", source := "text" } := by
  obtain ⟨h1, _, _, h4⟩ := countReadingChars_total none (some "  ")
  exact ⟨h1, h4 (by decide)⟩

/-- C4: the `count` field always equals the number of Unicode scalar
values of the `normalized` field. -/
theorem countReadingChars_count_invariant (text yomi : Option String) :
    (countReadingChars text yomi).count =
      (countReadingChars text yomi).normalized.length :=
  rfl

/-- C5: `normalizeReading` is idempotent: normalizing an already
normalized string yields the same string unchanged. -/
theorem normalizeReading_idem (s : String) :
    normalizeReading (normalizeReading s) = normalizeReading s := by
  rw [show normalizeReading (normalizeReading s) =
      stripSmallKana (stripPunctuation (toHiragana (normalizeReading s))) from rfl]
  rw [toHiragana_normalizeReading, stripPunctuation_normalizeReading,
    stripSmallKana_normalizeReading]

/-- C6 counterexample: the claim asserts that some string `s` makes
`countReadingChars(s, "").count` and `countReadingChars("", s).count`
differ; in fact no string does, so the claimed existence is false. -/
theorem countReadingChars_swap_claim_false :
    ¬ ∃ s : String, (countReadingChars (some s) (some "")).count ≠
      (countReadingChars (some "") (some s)).count :=
  fun ⟨s, hs⟩ => hs (countReadingChars_swap_count_aux s)

/-- C6 amended: for every string `s` the two counts coincide — source
selection differs between the two calls (for a non-whitespace `s` the
sources are "text" and "yomi" respectively), but an all-whitespace yomi
normalizes to the empty string, so the counts are always equal. -/
theorem countReadingChars_swap_count_eq (s : String) :
    ((countReadingChars (some s) (some "")).count =
      (countReadingChars (some "") (some s)).count)
    ∧ ((countReadingChars (some "あ") (some "")).source ≠
        (countReadingChars (some "") (some "あ")).source) :=
  ⟨countReadingChars_swap_count_aux s, by decide⟩

/-- C7 counterexample: the ASCII comma is a symbol other than the plain
period, yet the punctuation-stripping stage removes it. -/
theorem stripPunctuation_removes_comma :
    stripPunctuation "," = "" ∧ isAsciiSymbol ',' = true ∧ (',' : Char) ≠ '.' := by
  decide

/-- C7 amended: among ASCII symbol characters the punctuation-stripping
stage removes exactly the ten characters `, . ! ? ( ) [ ] : ;`; every
other ASCII symbol is retained. -/
theorem stripPunctuation_ascii_symbol_set :
    ∀ n : Fin 128, isAsciiSymbol (Char.ofNat n.val) = true →
      (stripPunctuation ⟨[Char.ofNat n.val]⟩ = "" ↔
        Char.ofNat n.val ∈
          ([',', '.', '!', '?', '(', ')', '[', ']', ':', ';'] : List Char)) := by
  decide

/-- Witness for the amended C7 at the semicolon (code 59). -/
theorem stripPunctuation_ascii_symbol_set_witness :
    stripPunctuation ⟨[Char.ofNat (59 : Fin 128).val]⟩ = "" ↔
      Char.ofNat (59 : Fin 128).val ∈
        ([',', '.', '!', '?', '(', ')', '[', ']', ':', ';'] : List Char) :=
  stripPunctuation_ascii_symbol_set 59 (by decide)

/-- C8: the small-kana elision stage removes exactly the six small
ya/yu/yo glyphs (hiragana and katakana), and normalizing "きゃ" yields
"き" of Unicode-scalar length 1, not 2. -/
theorem stripSmallKana_exactly_six (c : Char) :
    (stripSmallKana ⟨[c]⟩ = "" ↔ c ∈ smallKanaChars)
    ∧ normalizeReading "きゃ" = "き"
    ∧ (normalizeReading "きゃ").length = 1 := by
  refine ⟨?_, by decide, by decide⟩
  constructor
  · intro h
    have hd : [c].filter (fun x => !smallKanaChars.contains x) = [] :=
      congrArg String.data h
    have hc := List.filter_eq_nil_iff.mp hd c (List.mem_singleton_self c)
    simp only [Bool.not_eq_true', Bool.not_eq_false] at hc
    exact List.elem_iff.mp hc
  · intro h
    have hc : smallKanaChars.contains c = true := List.elem_iff.mpr h
    have hnil : [c].filter (fun x => !smallKanaChars.contains x) = [] :=
      List.filter_eq_nil_iff.mpr
        (fun a ha => by rw [List.mem_singleton.mp ha]; simp [hc, h])
    apply String.ext
    show [c].filter (fun x => !smallKanaChars.contains x) = "".data
    exact hnil.trans rfl

/-- C9: because the fold stage runs first, the katakana alternatives in
the small-kana stage are dead: `normalizeReading` is extensionally equal
to the variant pipeline whose final stage removes only the hiragana
glyphs ゃ, ゅ, ょ. -/
theorem normalizeReading_eq_hiraganaOnly (s : String) :
    normalizeReading s = normalizeReadingHiraganaOnly s := by
  unfold normalizeReading normalizeReadingHiraganaOnly stripSmallKana
    stripSmallKanaHiraganaOnly
  congr 1
  apply List.filter_congr
  intro a ha
  obtain ⟨b, hb⟩ := mem_stripPunctuation_toHiragana s a ha
  have hnk := foldKatakanaChar_not_katakana b
  rw [hb] at hnk
  unfold KATAKANA_START KATAKANA_END at hnk
  have h1 : a ≠ 'ャ' := fun he => by subst he; exact hnk (by decide)
  have h2 : a ≠ 'ュ' := fun he => by subst he; exact hnk (by decide)
  have h3 : a ≠ 'ョ' := fun he => by subst he; exact hnk (by decide)
  simp [smallKanaChars, List.contains_eq_any_beq, h1, h2, h3]

/-- C10: the small tsu is folded but not elided — normalizing "っ" or
"ッ" yields "っ" — and the small vowel kana ぁ ぃ ぅ ぇ ぉ are retained,
each contributing exactly 1 to the count. -/
theorem smallTsu_smallVowels_retained :
    normalizeReading "っ" = "っ" ∧ normalizeReading "ッ" = "っ"
    ∧ normalizeReading "ぁ" = "ぁ" ∧ normalizeReading "ぃ" = "ぃ"
    ∧ normalizeReading "ぅ" = "ぅ" ∧ normalizeReading "ぇ" = "ぇ"
    ∧ normalizeReading "ぉ" = "ぉ"
    ∧ (countReadingChars none (some "っ")).count = 1
    ∧ (countReadingChars none (some "ッ")).count = 1
    ∧ (countReadingChars none (some "ぁ")).count = 1
    ∧ (countReadingChars none (some "ぃ")).count = 1
    ∧ (countReadingChars none (some "ぅ")).count = 1
    ∧ (countReadingChars none (some "ぇ")).count = 1
    ∧ (countReadingChars none (some "ぉ")).count = 1 := by
  decide
